import Mathlib

set_option maxHeartbeats 1000000
set_option maxRecDepth 100000

/-! Shallow embedding of the release-cleanup action in src/index.js of
freenet-actions/delete-old-releases, together with theorems settling the
specification claims about it.  JavaScript mutable closure state is passed
explicitly, thrown values become `Except`/`Option` results, network calls and
log lines are recorded in an explicit event trace, and the unbounded
do/while pagination loop takes explicit fuel. -/

/-- A JavaScript exception value: either a thrown plain string (which has no
`message` property) or an `Error` object carrying a message. -/
inductive JsError where
  | strErr (s : String)
  | errObj (message : String)
deriving DecidableEq

/-- The `message` property read by the top-level handler (`error.message`).
`none` models the JavaScript value `undefined`, which is what reading
`.message` on a thrown plain string yields. -/
def jsMessage : JsError → Option String
  | JsError.strErr _ => none
  | JsError.errObj m => some m

/-- One network call made through the octokit collaborator. -/
inductive ApiCall where
  | listReleases (owner repo : String) (page perPage : Nat)
  | deleteRelease (owner repo : String) (releaseId : Nat)
  | deleteRef (owner repo : String) (ref : String)
deriving DecidableEq

/-- An observable event of a run: a `core.info` log line, a network call, or a
`core.setFailed` report with the (possibly undefined) message it received. -/
inductive Event where
  | info (msg : String)
  | call (c : ApiCall)
  | setFailed (msg : Option String)
deriving DecidableEq

/-- Extract the network calls from an event trace. -/
def callsOf (events : List Event) : List ApiCall :=
  events.filterMap (fun e =>
    match e with
    | Event.call c => some c
    | _ => none)

/-- A raw release record as returned by the listing collaborator (an entry of
the `listReleases` response `data`).  Timestamps are modelled as integers
ordered the same way moment orders the ISO timestamp strings; `published_at`
is `none` when the release has no published timestamp. -/
structure RawRelease where
  id : Nat
  name : String
  tag_name : String
  draft : Bool
  published_at : Option Int
  created_at : Int
deriving DecidableEq

/-- The summary `{id, name, tag}` pushed onto `releasesToDelete`
(src/index.js lines 118-122). -/
structure ReleaseSummary where
  id : Nat
  name : String
  tag : String
deriving DecidableEq

/-- Semantics of a compiled JavaScript regular expression
(`new RegExp(regex)`): `test s` is `pattern.test(s)` and `groupCapture s` is
the value `s.match(pattern).groups.group`, with `none` standing for the
JavaScript value `undefined`. -/
structure RegexEngine where
  test : String → Bool
  groupCapture : String → Option String

/-- JavaScript string truthiness as used on the raw inputs (`if (prefix)`,
`if (regex)`): the empty string is the only falsy string. -/
def jsTruthy (s : String) : Bool := decide (s ≠ "")

/-- JavaScript `releaseName.startsWith(prefixValue)`. -/
def jsStartsWith (s pre : String) : Bool := pre.data.isPrefixOf s.data

/-- JavaScript `s.indexOf(pat) !== -1`: some suffix position of `s` starts
with `pat`. -/
def containsSubstring (s pat : String) : Bool :=
  (List.range (s.data.length + 1)).any (fun i => pat.data.isPrefixOf (s.data.drop i))

/-- The name-filtering configuration captured by the `checkReleaseName`
closure: the raw `prefix` and `regex` input strings (the empty string meaning
"not provided", matching `core.getInput`) and the `keep-latest-releases`
flag. -/
structure NameConfig where
  prefixStr : String
  regexStr : String
  keepLatestReleases : Bool
deriving DecidableEq

/-- State of the closure variable `foundReleaseGroups`: a JavaScript array of
captured group values, where `none` models `undefined`. -/
abbrev Seen := List (Option String)

/-- The `checkReleaseName` closure of src/index.js lines 53-76, with the
mutable array `foundReleaseGroups` passed in and returned explicitly.
`Array.prototype.includes` on these values is value equality, modelled by
`decide (releaseGroup ∈ seen)`; `push` appends at the end. -/
def checkReleaseName (cfg : NameConfig) (pat : RegexEngine) (seen : Seen)
    (releaseName : String) : Bool × Seen :=
  if jsTruthy cfg.prefixStr && !(jsStartsWith releaseName cfg.prefixStr) then
    (false, seen)
  else if jsTruthy cfg.regexStr then
    if !(pat.test releaseName) then
      (false, seen)
    else if cfg.keepLatestReleases then
      let releaseGroup := pat.groupCapture releaseName
      if decide (releaseGroup ∈ seen) then
        (true, seen)
      else
        (false, seen ++ [releaseGroup])
    else
      (true, seen)
  else
    (true, seen)

/-- The sub-check `checkReleaseNameAgainstPrefix` of the decomposed variant
(src/index.js lines 192-199); the name carries an `Input` suffix here. -/
def checkReleaseNameAgainstPrefixInput (cfg : NameConfig) (releaseName : String) : Bool :=
  if jsTruthy cfg.prefixStr then jsStartsWith releaseName cfg.prefixStr else true

/-- The sub-check `checkReleaseNameAgainstRegex` of the decomposed variant
(src/index.js lines 201-210). -/
def checkReleaseNameAgainstRegex (cfg : NameConfig) (pat : RegexEngine)
    (releaseName : String) : Bool :=
  if jsTruthy cfg.regexStr then pat.test releaseName else true

/-- The sub-check `checkReleaseGroups` of the decomposed variant
(src/index.js lines 212-226), again with `foundReleaseGroups` explicit. -/
def checkReleaseGroups (cfg : NameConfig) (pat : RegexEngine) (seen : Seen)
    (releaseName : String) : Bool × Seen :=
  if cfg.keepLatestReleases then
    let releaseGroup := pat.groupCapture releaseName
    if decide (releaseGroup ∈ seen) then
      (true, seen)
    else
      (false, seen ++ [releaseGroup])
  else
    (true, seen)

/-- The composed predicate of the decomposed variant (src/index.js lines
228-231): short-circuit conjunction of the three sub-checks, so the group
state is touched only when the first two sub-checks pass. -/
def checkReleaseNameComposed (cfg : NameConfig) (pat : RegexEngine) (seen : Seen)
    (releaseName : String) : Bool × Seen :=
  if !(checkReleaseNameAgainstPrefixInput cfg releaseName) then
    (false, seen)
  else if !(checkReleaseNameAgainstRegex cfg pat releaseName) then
    (false, seen)
  else
    checkReleaseGroups cfg pat seen releaseName

/-- The inputs object produced by `parseInputs` (src/index.js lines 78-86),
with the compiled pattern and the name configuration captured by the
`checkReleaseName` closure carried explicitly. -/
structure Inputs where
  nameCfg : NameConfig
  pat : RegexEngine
  dateCutoff : Int
  deleteTags : Bool
  dryRun : Bool
  token : String
  owner : String
  repo : String

/-- The raw configuration strings read by `parseInputs` via `core.getInput`
(absent inputs read as the empty string) plus the repository coordinates from
the context. -/
structure RawInputs where
  prefixStr : String
  regexStr : String
  maxAge : String
  deleteTagsStr : String
  keepLatestStr : String
  dryRunStr : String
  token : String
  owner : String
  repo : String
deriving DecidableEq

/-- The configuration-error string thrown when keep-latest-releases is
requested without a regex (src/index.js line 41). -/
def msgRegexRequired : String :=
  "When using the keep-latest-releases option, a regex input is required."

/-- The configuration-error string thrown when the regex lacks the named
capture group (src/index.js line 44). -/
def msgGroupRequired : String :=
  "When using the keep-latest-releases option, regex needs to contain a capturing group named \"group\"."

/-- src/index.js lines 27-87: validate the `keep-latest-releases`/`regex`
combination (throwing plain strings), compute the cutoff as now minus the
parsed max-age duration, and build the inputs object.  The duration parser
(moment) and the regex compiler are external collaborators passed in;
a duration-parser failure propagates. -/
def parseInputs (raw : RawInputs) (compile : String → RegexEngine)
    (parseDuration : String → Except JsError Int) (now : Int) :
    Except JsError Inputs :=
  let keepLatestReleases := raw.keepLatestStr == "true"
  if keepLatestReleases && !(jsTruthy raw.regexStr) then
    Except.error (JsError.strErr msgRegexRequired)
  else if keepLatestReleases && !(containsSubstring raw.regexStr ("(?<group>")) then
    Except.error (JsError.strErr msgGroupRequired)
  else
    match parseDuration raw.maxAge with
    | Except.error e => Except.error e
    | Except.ok dur =>
      Except.ok
        ⟨⟨raw.prefixStr, raw.regexStr, keepLatestReleases⟩,
          compile raw.regexStr, now - dur,
          raw.deleteTagsStr == "true", raw.dryRunStr == "true",
          raw.token, raw.owner, raw.repo⟩

/-- The effective date `release.published_at || release.created_at`. -/
def effectiveDate (r : RawRelease) : Int := r.published_at.getD r.created_at

/-- moment's `a.isAfter(b)`: strict comparison. -/
def momentIsAfter (a b : Int) : Bool := decide (b < a)

/-- The fixed page size requested per listing call (src/index.js line 102). -/
def per_page : Nat := 100

/-- The collaborator capabilities consumed by the run: a paginated listing
keyed by page number and the two deletion endpoints, each of which may fail
with a JavaScript error. -/
structure Collaborators where
  listReleases : Nat → Except JsError (List RawRelease)
  deleteRelease : String → String → Nat → Option JsError
  deleteRef : String → String → String → Option JsError

/-- The loop body of src/index.js lines 111-124 for a single raw release,
acting on the state (foundReleaseGroups, releasesToDelete, list of names the
predicate has been invoked on).  Drafts are skipped before anything else;
for a non-draft release the predicate runs (recording the invocation and its
state update) and the date check applies only to its result. -/
def processRelease (cfg : NameConfig) (pat : RegexEngine) (cutoff : Int)
    (st : Seen × List ReleaseSummary × List String) (r : RawRelease) :
    Seen × List ReleaseSummary × List String :=
  if r.draft then st
  else
    let res := checkReleaseName cfg pat st.1 r.name
    let inv := st.2.2 ++ [r.name]
    if res.1 && momentIsAfter cutoff (effectiveDate r) then
      (res.2, st.2.1 ++ [⟨r.id, r.name, r.tag_name⟩], inv)
    else
      (res.2, st.2.1, inv)

/-- Successful outcome of `fetchAndFilterReleases`: the accumulated
`releasesToDelete`, the final group state, and the names `checkReleaseName`
was invoked on, in invocation order. -/
structure FetchOk where
  summaries : List ReleaseSummary
  seen : Seen
  invocations : List String
deriving DecidableEq

/-- Package the loop state (group state, accumulator, invocation list) as a
fetch outcome. -/
def packFetch (st : Seen × List ReleaseSummary × List String) : FetchOk :=
  ⟨st.2.1, st.1, st.2.2⟩

/-- The do/while pagination loop of src/index.js lines 105-127, with explicit
fuel (`none` = the fuel ran out, i.e. the modelled prefix of the loop did not
terminate).  Each iteration first issues the listing call for the current
page (recorded in the event trace), propagates a listing failure, otherwise
processes every record of the page and continues exactly when the page held
`per_page` records. -/
def fetchLoop (lister : Nat → Except JsError (List RawRelease)) (cfg : NameConfig)
    (pat : RegexEngine) (cutoff : Int) (owner repo : String) :
    Nat → Nat → (Seen × List ReleaseSummary × List String) → List Event →
    Option (List Event × Except JsError FetchOk)
  | 0, _, _, _ => none
  | fuel + 1, page, st, events =>
    let events2 := events ++ [Event.call (ApiCall.listReleases owner repo page per_page)]
    match lister page with
    | Except.error e => some (events2, Except.error e)
    | Except.ok releases =>
      let st2 := releases.foldl (processRelease cfg pat cutoff) st
      if releases.length == per_page then
        fetchLoop lister cfg pat cutoff owner repo fuel (page + 1) st2 events2
      else
        some (events2, Except.ok ⟨st2.2.1, st2.1, st2.2.2⟩)

/-- src/index.js lines 96-130: run the pagination loop starting at page 1
(the source increments its 0-initialised page counter before each call) with
empty accumulators. -/
def fetchAndFilterReleases (lister : Nat → Except JsError (List RawRelease))
    (cfg : NameConfig) (pat : RegexEngine) (cutoff : Int) (owner repo : String)
    (fuel : Nat) : Option (List Event × Except JsError FetchOk) :=
  fetchLoop lister cfg pat cutoff owner repo fuel 1 ([], [], []) []

/-- A listing collaborator serving a fixed sequence of pages: page `k`
(1-indexed) answers with the `k`-th block, and pages beyond the sequence
answer with the empty list. -/
def listerOf (pages : List (List RawRelease)) : Nat → Except JsError (List RawRelease) :=
  fun page => Except.ok (pages.getD (page - 1) [])

/-- A well-formed paginated listing: every page except the last holds exactly
`per_page` records and the last page holds fewer. -/
def wellFormedPages : List (List RawRelease) → Bool
  | [] => true
  | [p] => decide (p.length < per_page)
  | p :: q :: rest => (p.length == per_page) && wellFormedPages (q :: rest)

/-- Projection: the selected summaries of a successful fetch outcome. -/
def summariesOf (out : Option (List Event × Except JsError FetchOk)) :
    Option (List ReleaseSummary) :=
  match out with
  | some (_, Except.ok fr) => some fr.summaries
  | _ => none

/-- Projection: the predicate-invocation trace of a successful fetch outcome. -/
def invocationsOf (out : Option (List Event × Except JsError FetchOk)) :
    Option (List String) :=
  match out with
  | some (_, Except.ok fr) => some fr.invocations
  | _ => none

/-- Projection: the final group state of a successful fetch outcome. -/
def seenOf (out : Option (List Event × Except JsError FetchOk)) : Option Seen :=
  match out with
  | some (_, Except.ok fr) => some fr.seen
  | _ => none

/-- Projection: the event trace of a fetch outcome. -/
def eventsOf (out : Option (List Event × Except JsError FetchOk)) : Option (List Event) :=
  match out with
  | some (evs, _) => some evs
  | none => none

/-- The loop of src/index.js lines 141-158 over the selected releases: log a
notice per release; unless dry-run, call the release-deletion endpoint and,
when tag deletion is enabled, the tag-deletion endpoint with
`ref = "tags/" + tag`, stopping at the first collaborator failure (a thrown
error aborts the loop). -/
def deleteLoop (collab : Collaborators) (inputs : Inputs) :
    List ReleaseSummary → List Event × Option JsError
  | [] => ([], none)
  | r :: rest =>
    let iv := Event.info ("Removing release " ++ r.name)
    if inputs.dryRun then
      let tail := deleteLoop collab inputs rest
      (iv :: tail.1, tail.2)
    else
      let callEv := Event.call (ApiCall.deleteRelease inputs.owner inputs.repo r.id)
      match collab.deleteRelease inputs.owner inputs.repo r.id with
      | some e => ([iv, callEv], some e)
      | none =>
        if inputs.deleteTags then
          let refStr := ("tags/") ++ r.tag
          let refEv := Event.call (ApiCall.deleteRef inputs.owner inputs.repo refStr)
          match collab.deleteRef inputs.owner inputs.repo refStr with
          | some e => ([iv, callEv, refEv], some e)
          | none =>
            let tail := deleteLoop collab inputs rest
            (iv :: callEv :: refEv :: tail.1, tail.2)
        else
          let tail := deleteLoop collab inputs rest
          (iv :: callEv :: tail.1, tail.2)

/-- src/index.js lines 139-159: the summary log line followed by the
per-release loop. -/
def deleteReleases (collab : Collaborators) (inputs : Inputs)
    (releases : List ReleaseSummary) : List Event × Option JsError :=
  let header := Event.info
    (("Removing ") ++ toString releases.length ++ (" releases")
      ++ (if inputs.deleteTags then (" with tags") else "")
      ++ (if inputs.dryRun then (" (but not actually)") else ""))
  let tail := deleteLoop collab inputs releases
  (header :: tail.1, tail.2)

/-- src/index.js lines 9-21: parse the inputs, log the search notice, fetch
and filter, delete; any stage error is caught once at the top and reported
via a single `core.setFailed(error.message)`.  The result is the full event
trace (`none` when the pagination fuel ran out). -/
def run (raw : RawInputs) (compile : String → RegexEngine)
    (parseDuration : String → Except JsError Int) (now : Int)
    (collab : Collaborators) (fuel : Nat) : Option (List Event) :=
  match parseInputs raw compile parseDuration now with
  | Except.error e => some [Event.setFailed (jsMessage e)]
  | Except.ok inputs =>
    let headerEv := Event.info (("Searching for releases older than ") ++ toString inputs.dateCutoff)
    match fetchAndFilterReleases collab.listReleases inputs.nameCfg inputs.pat
        inputs.dateCutoff inputs.owner inputs.repo fuel with
    | none => none
    | some (evs, Except.error e) =>
      some (headerEv :: evs ++ [Event.setFailed (jsMessage e)])
    | some (evs, Except.ok fr) =>
      let del := deleteReleases collab inputs fr.summaries
      match del.2 with
      | some e => some (headerEv :: evs ++ del.1 ++ [Event.setFailed (jsMessage e)])
      | none => some (headerEv :: evs ++ del.1)

/-- Test semantics of the concrete pattern `^(?<group>.*)-\d+$` used in the
group-retention scenario: the string ends in a hyphen followed by one or more
digits.  Computed from the reversed character list: a nonempty maximal digit
run at the end, preceded by a hyphen. -/
def groupPatternTest (s : String) : Bool :=
  let r := s.data.reverse
  let d := r.takeWhile Char.isDigit
  (!(d.isEmpty)) &&
    (match r.drop d.length with
     | c :: _ => c == '-'
     | [] => false)

/-- Named capture `group` of the same pattern: the greedy `.*` makes the
captured group everything before the hyphen that precedes the maximal
trailing digit run.  `none` when the pattern does not match. -/
def groupPatternCapture (s : String) : Option String :=
  if groupPatternTest s then
    let r := s.data.reverse
    let d := r.takeWhile Char.isDigit
    some (String.mk ((r.drop (d.length + 1)).reverse))
  else
    none

/-- The compiled form of `^(?<group>.*)-\d+$`. -/
def groupEngine : RegexEngine := ⟨groupPatternTest, groupPatternCapture⟩

/-- A regex engine that accepts everything and captures nothing; stands in for
the compiled pattern when no regex input is configured (the pattern is then
never consulted). -/
def anyEngine : RegexEngine := ⟨fun _ => true, fun _ => none⟩

/-- Modelled from the spec wording: the effective date is the published
timestamp when present, otherwise the creation timestamp. -/
def specEffectiveDate (r : RawRelease) : Int :=
  match r.published_at with
  | some d => d
  | none => r.created_at

/-- Modelled from the spec (claim C2 wording): walk the raw releases in
order; skip drafts; a release is selected iff `checkReleaseName` returns true
on its name (threading the group state) and its effective date is strictly
before the cutoff; a selected release contributes `{id, name, tag}` in
encounter order. -/
def collectSpec (cfg : NameConfig) (pat : RegexEngine) (cutoff : Int) :
    List RawRelease → Seen → List ReleaseSummary
  | [], _ => []
  | r :: rest, seen =>
    if r.draft then collectSpec cfg pat cutoff rest seen
    else if (checkReleaseName cfg pat seen r.name).1 && decide (specEffectiveDate r < cutoff) then
      ⟨r.id, r.name, r.tag_name⟩ ::
        collectSpec cfg pat cutoff rest (checkReleaseName cfg pat seen r.name).2
    else
      collectSpec cfg pat cutoff rest (checkReleaseName cfg pat seen r.name).2

/-- Modelled from the spec (claim C1 wording): given the sequence of captured
group values, the first occurrence of a value records it and yields `false`
(kept), every later occurrence of a recorded value yields `true` (eligible
for deletion). -/
def specFirstSeenFlags : List (Option String) → Seen → List Bool
  | [], _ => []
  | c :: rest, seen =>
    if decide (c ∈ seen) then
      true :: specFirstSeenFlags rest seen
    else
      false :: specFirstSeenFlags rest (seen ++ [c])

/-- Run `checkReleaseName` over a sequence of names, threading the group
state, and collect the sequence of results. -/
def checkRun (cfg : NameConfig) (pat : RegexEngine) :
    Seen → List String → List Bool
  | _, [] => []
  | seen, n :: rest =>
    let res := checkReleaseName cfg pat seen n
    res.1 :: checkRun cfg pat res.2 rest

/-- Fold the group-state updates of `checkReleaseName` over a sequence of
names (the state left behind by `checkRun`). -/
def seenAfter (cfg : NameConfig) (pat : RegexEngine) (seen : Seen)
    (names : List String) : Seen :=
  names.foldl (fun s n => (checkReleaseName cfg pat s n).2) seen

/-- Modelled from the spec (claim C8 wording): the expected collaborator-call
sequence of the delete phase when not in dry-run mode — for each release in
list order one release-deletion call, followed, exactly when tag deletion is
enabled, by one tag-deletion call with ref `tags/` + tag, before the next
release. -/
def expectedDeleteCalls (inputs : Inputs) : List ReleaseSummary → List ApiCall
  | [] => []
  | r :: rest =>
    ApiCall.deleteRelease inputs.owner inputs.repo r.id ::
      ((if inputs.deleteTags then
          [ApiCall.deleteRef inputs.owner inputs.repo (("tags/") ++ r.tag)]
        else []) ++ expectedDeleteCalls inputs rest)

/-- The expected listing-request trace: calls for pages `k, k+1, …` of size
`per_page`, `m` of them. -/
def expectedRequests (owner repo : String) (k m : Nat) : List Event :=
  (List.range' k m).map (fun p => Event.call (ApiCall.listReleases owner repo p per_page))

/-- Configuration of the §8 group-retention scenario: no prefix, the regex
`^(?<group>.*)-\d+$`, keep-latest-releases enabled. -/
def cfg8 : NameConfig := ⟨"", ("^(?<group>.*)-\\d+$"), true⟩

/-- The two releases of the §8 scenario, in listing order: `develop-2`
published 2022-02-25, then `develop-1` published 2022-01-23 (timestamps as
`yyyymmdd` integers). -/
def pages8 : List (List RawRelease) :=
  [[⟨2, ("develop-2"), ("develop-2"), false, some 20220225, 20220225⟩,
    ⟨1, ("develop-1"), ("develop-1"), false, some 20220123, 20220123⟩]]

/-- The §8 cutoff: one week before 2022-01-31, i.e. 2022-01-24. -/
def cutoff8 : Int := 20220124

/-- A sample release for the 261-release pagination scenario. -/
def sampleRelease (i : Nat) : RawRelease :=
  ⟨i, "r", "t", false, some 0, 0⟩

/-- The 261 releases of the pagination scenario, spread over pages of
100, 100 and 61 records. -/
def pages261 : List (List RawRelease) :=
  [(List.range 100).map sampleRelease,
   (List.range 100).map (fun i => sampleRelease (100 + i)),
   (List.range 61).map (fun i => sampleRelease (200 + i))]

/-- An unfiltering configuration (no prefix, no regex, no group retention). -/
def cfgAll : NameConfig := ⟨"", "", false⟩

/-- Collaborators that always succeed: an empty listing and deletion
endpoints that never fail. -/
def noopCollab : Collaborators :=
  ⟨fun _ => Except.ok [], fun _ _ _ => none, fun _ _ _ => none⟩

/-- A regex compiler collaborator returning the accept-everything engine. -/
def compileAny : String → RegexEngine := fun _ => anyEngine

/-- A duration parser collaborator that always succeeds with a zero
duration. -/
def durOk : String → Except JsError Int := fun _ => Except.ok 0

/-- A duration parser collaborator that always fails with an `Error`
object. -/
def durFail : String → Except JsError Int :=
  fun _ => Except.error (JsError.errObj ("Invalid duration"))

/-- Raw inputs requesting keep-latest-releases without any regex — the §8
configuration-validation failure case. -/
def rawBad : RawInputs :=
  ⟨"", "", ("P1W"), "", ("true"), "", ("tok"), ("o"), ("r")⟩

/-- Raw inputs with no filters at all (every input absent). -/
def rawPlain : RawInputs := ⟨"", "", ("P1W"), "", "", "", ("tok"), ("o"), ("r")⟩

/-- A concrete inputs value for exercising the delete phase: tag deletion
on, dry-run off. -/
def inputsW : Inputs := ⟨cfgAll, anyEngine, 0, true, false, ("tok"), ("o"), ("r")⟩

example : jsTruthy "" = false := by decide
example : jsStartsWith ("develop-1") ("develop-") = true := by decide
example : containsSubstring ("^(?<group>.*)-\\d+$") ("(?<group>") = true := by decide
example : containsSubstring (".*-\\d+$") ("(?<group>") = false := by decide
example : groupPatternTest ("develop-2") = true := by decide
example : groupPatternCapture ("develop-2") = some ("develop") := by decide
example : groupPatternCapture ("a-1-2") = some ("a-1") := by decide
example : groupPatternTest ("a-") = false := by decide
example : groupPatternTest ("12") = false := by decide
example :
    summariesOf (fetchAndFilterReleases (listerOf pages8) cfg8 groupEngine cutoff8
      ("o") ("r") 2) = some [⟨1, ("develop-1"), ("develop-1")⟩] := by decide

lemma specEffectiveDate_eq (r : RawRelease) : specEffectiveDate r = effectiveDate r := by
  cases hp : r.published_at <;> simp [specEffectiveDate, effectiveDate, hp]

lemma momentIsAfter_eq (a b : Int) : momentIsAfter a b = decide (b < a) := rfl

lemma processRelease_draft (cfg : NameConfig) (pat : RegexEngine) (cutoff : Int)
    (st : Seen × List ReleaseSummary × List String) (r : RawRelease)
    (hd : r.draft = true) : processRelease cfg pat cutoff st r = st := by
  simp [processRelease, hd]

lemma processRelease_nondraft (cfg : NameConfig) (pat : RegexEngine) (cutoff : Int)
    (st : Seen × List ReleaseSummary × List String) (r : RawRelease)
    (hd : r.draft = false) :
    processRelease cfg pat cutoff st r =
      ((checkReleaseName cfg pat st.1 r.name).2,
        st.2.1 ++ (if (checkReleaseName cfg pat st.1 r.name).1 &&
            decide (specEffectiveDate r < cutoff) then [⟨r.id, r.name, r.tag_name⟩] else []),
        st.2.2 ++ [r.name]) := by
  rw [processRelease]
  simp only [hd, Bool.false_eq_true, if_false, momentIsAfter_eq, specEffectiveDate_eq]
  split
  next h => simp [h]
  next h => simp [h]

/-- Characterisation of the per-page fold: it threads the group state through
exactly the non-draft names, appends the spec-selected summaries, and appends
those names to the invocation list. -/
lemma foldl_processRelease_eq (cfg : NameConfig) (pat : RegexEngine) (cutoff : Int)
    (rs : List RawRelease) :
    ∀ (seen : Seen) (acc : List ReleaseSummary) (inv : List String),
    List.foldl (processRelease cfg pat cutoff) (seen, acc, inv) rs =
      (seenAfter cfg pat seen ((rs.filter (fun r => !r.draft)).map RawRelease.name),
        acc ++ collectSpec cfg pat cutoff rs seen,
        inv ++ (rs.filter (fun r => !r.draft)).map RawRelease.name) := by
  induction rs with
  | nil => intro seen acc inv; simp [seenAfter, collectSpec]
  | cons r rest ih =>
    intro seen acc inv
    cases hd : r.draft with
    | true =>
      rw [List.foldl_cons, processRelease_draft cfg pat cutoff _ r hd, ih seen acc inv]
      simp [collectSpec, hd]
    | false =>
      rw [List.foldl_cons, processRelease_nondraft cfg pat cutoff _ r hd]
      rw [ih]
      have hfilter : ((r :: rest).filter (fun r => !r.draft)).map RawRelease.name =
          r.name :: ((rest.filter (fun r => !r.draft)).map RawRelease.name) := by
        simp [List.filter_cons, hd]
      rw [hfilter]
      have hseen : seenAfter cfg pat seen
          (r.name :: (rest.filter (fun r => !r.draft)).map RawRelease.name) =
          seenAfter cfg pat (checkReleaseName cfg pat seen r.name).2
            ((rest.filter (fun r => !r.draft)).map RawRelease.name) := by
        simp [seenAfter]
      rw [hseen]
      cases hc : (checkReleaseName cfg pat seen r.name).1 && decide (specEffectiveDate r < cutoff) with
      | true =>
        have hcollect : collectSpec cfg pat cutoff (r :: rest) seen =
            ⟨r.id, r.name, r.tag_name⟩ ::
              collectSpec cfg pat cutoff rest (checkReleaseName cfg pat seen r.name).2 := by
          rw [collectSpec]
          simp [hd, hc]
        rw [hcollect]
        simp
      | false =>
        have hcollect : collectSpec cfg pat cutoff (r :: rest) seen =
            collectSpec cfg pat cutoff rest (checkReleaseName cfg pat seen r.name).2 := by
          rw [collectSpec]
          simp [hd, hc]
        rw [hcollect]
        simp

lemma fetchLoop_succ_ok (lister : Nat → Except JsError (List RawRelease)) (cfg : NameConfig)
    (pat : RegexEngine) (cutoff : Int) (owner repo : String) (fuel page : Nat)
    (st : Seen × List ReleaseSummary × List String) (ev : List Event)
    (releases : List RawRelease) (h : lister page = Except.ok releases) :
    fetchLoop lister cfg pat cutoff owner repo (fuel + 1) page st ev =
      (if releases.length == per_page then
        fetchLoop lister cfg pat cutoff owner repo fuel (page + 1)
          (releases.foldl (processRelease cfg pat cutoff) st)
          (ev ++ [Event.call (ApiCall.listReleases owner repo page per_page)])
      else
        some (ev ++ [Event.call (ApiCall.listReleases owner repo page per_page)],
          Except.ok (packFetch (releases.foldl (processRelease cfg pat cutoff) st)))) := by
  rw [fetchLoop, h]
  rfl

lemma fetchLoop_succ_error (lister : Nat → Except JsError (List RawRelease)) (cfg : NameConfig)
    (pat : RegexEngine) (cutoff : Int) (owner repo : String) (fuel page : Nat)
    (st : Seen × List ReleaseSummary × List String) (ev : List Event)
    (e : JsError) (h : lister page = Except.error e) :
    fetchLoop lister cfg pat cutoff owner repo (fuel + 1) page st ev =
      some (ev ++ [Event.call (ApiCall.listReleases owner repo page per_page)], Except.error e) := by
  rw [fetchLoop, h]

lemma expectedRequests_one (owner repo : String) (k : Nat) :
    expectedRequests owner repo k 1 = [Event.call (ApiCall.listReleases owner repo k per_page)] := by
  simp [expectedRequests, List.range'_one]

lemma expectedRequests_succ (owner repo : String) (k n : Nat) :
    expectedRequests owner repo k (n + 1) =
      Event.call (ApiCall.listReleases owner repo k per_page) :: expectedRequests owner repo (k + 1) n := by
  simp [expectedRequests, List.range'_succ]

/-- Master characterisation of the pagination loop against a well-formed
paged listing: the loop issues one request per page (one request when there
are no pages), terminates with the given fuel, and its final state is the
fold of the loop body over the concatenation of all pages. -/
lemma fetchLoop_pages (cfg : NameConfig) (pat : RegexEngine) (cutoff : Int)
    (owner repo : String) (lister : Nat → Except JsError (List RawRelease))
    (pages : List (List RawRelease)) :
    ∀ (k : Nat) (st : Seen × List ReleaseSummary × List String) (ev : List Event),
      wellFormedPages pages = true →
      (∀ i, lister (k + i) = Except.ok (pages.getD i [])) →
      fetchLoop lister cfg pat cutoff owner repo (pages.length + 1) k st ev =
        some (ev ++ expectedRequests owner repo k (max 1 pages.length),
          Except.ok (packFetch (List.foldl (processRelease cfg pat cutoff) st pages.flatten))) := by
  induction pages with
  | nil =>
    intro k st ev hwf hl
    have h0 : lister k = Except.ok [] := by simpa using hl 0
    rw [show ([] : List (List RawRelease)).length + 1 = 0 + 1 from rfl,
      fetchLoop_succ_ok lister cfg pat cutoff owner repo 0 k st ev [] h0]
    simp [per_page, expectedRequests_one, List.flatten_nil]
  | cons p rest ih =>
    intro k st ev hwf hl
    have h0 : lister k = Except.ok p := by simpa using hl 0
    rw [show (p :: rest).length + 1 = rest.length + 1 + 1 from rfl,
      fetchLoop_succ_ok lister cfg pat cutoff owner repo (rest.length + 1) k st ev p h0]
    cases rest with
    | nil =>
      have hlen : p.length < per_page := by
        simpa [wellFormedPages] using hwf
      have hne : (p.length == per_page) = false := by
        simp [Nat.ne_of_lt hlen]
      simp only [hne, Bool.false_eq_true, if_false]
      simp [expectedRequests_one, List.flatten_cons, List.flatten_nil]
    | cons q rs =>
      have hwf2 : (p.length == per_page) = true ∧ wellFormedPages (q :: rs) = true := by
        simpa [wellFormedPages, Bool.and_eq_true] using hwf
      have hl2 : ∀ i, lister (k + 1 + i) = Except.ok ((q :: rs).getD i []) := by
        intro i
        have h := hl (i + 1)
        rw [show k + (i + 1) = k + 1 + i from by omega] at h
        simpa using h
      simp only [hwf2.1, if_true]
      rw [ih (k + 1) (p.foldl (processRelease cfg pat cutoff) st)
        (ev ++ [Event.call (ApiCall.listReleases owner repo k per_page)]) hwf2.2 hl2]
      have hmax1 : max 1 ((p :: q :: rs).length) = (q :: rs).length + 1 := by
        simp
      have hmax2 : max 1 (q :: rs).length = (q :: rs).length := by
        simp [List.length_cons]
      rw [hmax1, hmax2, expectedRequests_succ]
      simp [List.flatten_cons, List.foldl_append]

/-- Top-level characterisation of `fetchAndFilterReleases` run against a
well-formed paged listing with just enough fuel. -/
lemma fetchAndFilterReleases_pages (pages : List (List RawRelease)) (cfg : NameConfig)
    (pat : RegexEngine) (cutoff : Int) (owner repo : String)
    (hwf : wellFormedPages pages = true) :
    fetchAndFilterReleases (listerOf pages) cfg pat cutoff owner repo (pages.length + 1) =
      some (expectedRequests owner repo 1 (max 1 pages.length),
        Except.ok (packFetch
          (List.foldl (processRelease cfg pat cutoff) ([], [], []) pages.flatten))) := by
  have hl : ∀ i, listerOf pages (1 + i) = Except.ok (pages.getD i []) := by
    intro i
    simp [listerOf, Nat.add_sub_cancel_left]
  have h := fetchLoop_pages cfg pat cutoff owner repo (listerOf pages) pages 1 ([], [], []) [] hwf hl
  simpa [fetchAndFilterReleases] using h

/-- C2.  For every configuration and every (well-formed, finitely paged)
listing result, `fetchAndFilterReleases` returns exactly the releases that
are not drafts, on whose name the stateful `checkReleaseName` returns true,
and whose effective date (published timestamp when present, otherwise
creation timestamp) is strictly before the cutoff, each selected release
appearing as `{id, name, tag}` (tag taken from `tag_name`) in encounter
order — the spec-side filter `collectSpec` over the concatenated pages. -/
theorem fetch_selects_exactly_spec (pages : List (List RawRelease)) (cfg : NameConfig)
    (pat : RegexEngine) (cutoff : Int) (owner repo : String)
    (hwf : wellFormedPages pages = true) :
    summariesOf (fetchAndFilterReleases (listerOf pages) cfg pat cutoff owner repo
        (pages.length + 1)) =
      some (collectSpec cfg pat cutoff pages.flatten []) := by
  rw [fetchAndFilterReleases_pages pages cfg pat cutoff owner repo hwf]
  rw [foldl_processRelease_eq]
  simp [packFetch, summariesOf]

/-- Witness for C2: the §8 scenario pages are well formed, and the fetch
result there matches the spec-side filter. -/
theorem fetch_selects_exactly_spec_witness :
    summariesOf (fetchAndFilterReleases (listerOf pages8) cfg8 groupEngine cutoff8
        ("o") ("r") (pages8.length + 1)) =
      some (collectSpec cfg8 groupEngine cutoff8 pages8.flatten []) :=
  fetch_selects_exactly_spec pages8 cfg8 groupEngine cutoff8 ("o") ("r") (by decide)

/-- C3.  During one `fetchAndFilterReleases` run over a well-formed paged
listing, `checkReleaseName` is invoked exactly once per non-draft release, in
the collaborator's order across all pages, and never for a draft release;
and the final group state is exactly the fold of the predicate's state
updates over that invocation sequence — the state update happens before (and
regardless of) the date comparison, so a release failing only the age cutoff
still updates the group-retention state. -/
theorem fetch_invocations_nondraft_once (pages : List (List RawRelease)) (cfg : NameConfig)
    (pat : RegexEngine) (cutoff : Int) (owner repo : String)
    (hwf : wellFormedPages pages = true) :
    invocationsOf (fetchAndFilterReleases (listerOf pages) cfg pat cutoff owner repo
        (pages.length + 1)) =
      some ((pages.flatten.filter (fun r => !r.draft)).map RawRelease.name) ∧
    seenOf (fetchAndFilterReleases (listerOf pages) cfg pat cutoff owner repo
        (pages.length + 1)) =
      some (seenAfter cfg pat []
        ((pages.flatten.filter (fun r => !r.draft)).map RawRelease.name)) := by
  rw [fetchAndFilterReleases_pages pages cfg pat cutoff owner repo hwf]
  rw [foldl_processRelease_eq]
  constructor
  · simp [packFetch, invocationsOf]
  · simp [packFetch, seenOf]

/-- Witness for C3: in the §8 scenario both conjuncts hold at the concrete
pages. -/
theorem fetch_invocations_nondraft_once_witness :
    invocationsOf (fetchAndFilterReleases (listerOf pages8) cfg8 groupEngine cutoff8
        ("o") ("r") (pages8.length + 1)) =
      some ((pages8.flatten.filter (fun r => !r.draft)).map RawRelease.name) ∧
    seenOf (fetchAndFilterReleases (listerOf pages8) cfg8 groupEngine cutoff8
        ("o") ("r") (pages8.length + 1)) =
      some (seenAfter cfg8 groupEngine []
        ((pages8.flatten.filter (fun r => !r.draft)).map RawRelease.name)) :=
  fetch_invocations_nondraft_once pages8 cfg8 groupEngine cutoff8 ("o") ("r") (by decide)

/-- C4.  The listing requests are pages 1, 2, 3, … of fixed size `per_page`
(= 100), one per well-formed page (a single request when the listing is
empty), continuing exactly while pages come back full; and in the concrete
261-release scenario (pages of 100, 100 and 61 records) the run issues
exactly the requests for pages 1, 2, 3 with page size 100 and returns all
261 entries in original relative order. -/
theorem fetch_pagination_requests :
    (∀ (pages : List (List RawRelease)) (cfg : NameConfig) (pat : RegexEngine)
      (cutoff : Int) (owner repo : String), wellFormedPages pages = true →
      eventsOf (fetchAndFilterReleases (listerOf pages) cfg pat cutoff owner repo
          (pages.length + 1)) =
        some (expectedRequests owner repo 1 (max 1 pages.length))) ∧
    eventsOf (fetchAndFilterReleases (listerOf pages261) cfgAll anyEngine 1 ("o") ("r") 4) =
      some [Event.call (ApiCall.listReleases ("o") ("r") 1 100),
        Event.call (ApiCall.listReleases ("o") ("r") 2 100),
        Event.call (ApiCall.listReleases ("o") ("r") 3 100)] ∧
    summariesOf (fetchAndFilterReleases (listerOf pages261) cfgAll anyEngine 1 ("o") ("r") 4) =
      some ((List.range 261).map (fun i => ⟨i, "r", "t"⟩)) := by
  refine ⟨?_, by decide, by decide⟩
  intro pages cfg pat cutoff owner repo hwf
  rw [fetchAndFilterReleases_pages pages cfg pat cutoff owner repo hwf]
  simp [eventsOf]

/-- Witness for C4: the general conjunct applied to the §8 pages. -/
theorem fetch_pagination_requests_witness :
    eventsOf (fetchAndFilterReleases (listerOf pages8) cfg8 groupEngine cutoff8
        ("o") ("r") (pages8.length + 1)) =
      some (expectedRequests ("o") ("r") 1 (max 1 pages8.length)) :=
  fetch_pagination_requests.1 pages8 cfg8 groupEngine cutoff8 ("o") ("r") (by decide)

/-- In keep-latest mode, on a name passing the prefix and regex checks, the
predicate returns "seen before" and records a fresh group value. -/
lemma checkReleaseName_keep (cfg : NameConfig) (pat : RegexEngine) (seen : Seen)
    (n : String) (hk : cfg.keepLatestReleases = true) (hr : jsTruthy cfg.regexStr = true)
    (hp : checkReleaseNameAgainstPrefixInput cfg n = true) (ht : pat.test n = true) :
    checkReleaseName cfg pat seen n =
      (decide (pat.groupCapture n ∈ seen),
        if decide (pat.groupCapture n ∈ seen) = true then seen
        else seen ++ [pat.groupCapture n]) := by
  have hguard : (jsTruthy cfg.prefixStr && !(jsStartsWith n cfg.prefixStr)) = false := by
    cases hpt : jsTruthy cfg.prefixStr with
    | false => simp
    | true =>
      have hsw : jsStartsWith n cfg.prefixStr = true := by
        simpa [checkReleaseNameAgainstPrefixInput, hpt] using hp
      simp [hsw]
  rw [checkReleaseName]
  simp only [hguard, Bool.false_eq_true, if_false, hr, if_true, ht, Bool.not_true, hk]
  split <;> simp_all

/-- Running the predicate over names that all pass the prefix and regex
checks in keep-latest mode produces exactly the first-occurrence flags of
their captured group values. -/
lemma checkRun_keep (cfg : NameConfig) (pat : RegexEngine)
    (hk : cfg.keepLatestReleases = true) (hr : jsTruthy cfg.regexStr = true) :
    ∀ (names : List String) (seen : Seen),
      (∀ n ∈ names, checkReleaseNameAgainstPrefixInput cfg n = true ∧ pat.test n = true) →
      checkRun cfg pat seen names = specFirstSeenFlags (names.map pat.groupCapture) seen := by
  intro names
  induction names with
  | nil => intro seen h; simp [checkRun, specFirstSeenFlags]
  | cons n rest ih =>
    intro seen h
    have hn := h n (by simp)
    have hstep := checkReleaseName_keep cfg pat seen n hk hr hn.1 hn.2
    have hrest : ∀ m ∈ rest, checkReleaseNameAgainstPrefixInput cfg m = true ∧ pat.test m = true := by
      intro m hm
      exact h m (by simp [hm])
    rw [checkRun, hstep, List.map_cons, specFirstSeenFlags]
    cases hmem : decide (pat.groupCapture n ∈ seen) with
    | true =>
      simp only [hmem, if_true]
      rw [ih seen hrest]
    | false =>
      simp only [hmem, Bool.false_eq_true, if_false]
      rw [ih (seen ++ [pat.groupCapture n]) hrest]

/-- C1.  With keep-latest-releases enabled (regex configured), over any
sequence of names passing the prefix and regex checks the predicate returns
false exactly on the first name of each captured group value (recording it)
and true on every later name of a recorded value; and in the §8 scenario
(regex `^(?<group>.*)-\d+$`, releases `develop-2` then `develop-1`, cutoff
2022-01-24) the predicate keeps `develop-2` and only `develop-1` is
selected for deletion. -/
theorem keep_latest_first_seen :
    (∀ (cfg : NameConfig) (pat : RegexEngine) (names : List String),
      cfg.keepLatestReleases = true → jsTruthy cfg.regexStr = true →
      (∀ n ∈ names, checkReleaseNameAgainstPrefixInput cfg n = true ∧ pat.test n = true) →
      checkRun cfg pat [] names = specFirstSeenFlags (names.map pat.groupCapture) []) ∧
    checkRun cfg8 groupEngine [] [("develop-2"), ("develop-1")] = [false, true] ∧
    summariesOf (fetchAndFilterReleases (listerOf pages8) cfg8 groupEngine cutoff8
        ("o") ("r") 2) = some [⟨1, ("develop-1"), ("develop-1")⟩] := by
  refine ⟨?_, by decide, by decide⟩
  intro cfg pat names hk hr hall
  exact checkRun_keep cfg pat hk hr names [] hall

/-- Witness for C1: the general first-occurrence law applied to the §8
names. -/
theorem keep_latest_first_seen_witness :
    checkRun cfg8 groupEngine [] [("develop-2"), ("develop-1")] =
      specFirstSeenFlags (([("develop-2"), ("develop-1")]).map groupEngine.groupCapture) [] :=
  keep_latest_first_seen.1 cfg8 groupEngine [("develop-2"), ("develop-1")]
    (by decide) (by decide) (by decide)

/-- C9.  `checkReleaseName` is the short-circuit conjunction of the three
sub-checks of the decomposed variant (prefix, regex under `pattern.test`
semantics, group retention), each sub-check always-true when its governing
input is absent; in particular with neither prefix nor regex configured
every name passes and the state is untouched.  The first part is stated for
configurations satisfying the `parseInputs` validation invariant (group
retention only with a regex). -/
theorem checkReleaseName_is_conjunction :
    (∀ (cfg : NameConfig) (pat : RegexEngine) (seen : Seen) (n : String),
      (cfg.keepLatestReleases = true → jsTruthy cfg.regexStr = true) →
      checkReleaseName cfg pat seen n = checkReleaseNameComposed cfg pat seen n) ∧
    (∀ (keep : Bool) (pat : RegexEngine) (seen : Seen) (n : String),
      checkReleaseName ⟨"", "", keep⟩ pat seen n = (true, seen)) := by
  constructor
  · intro cfg pat seen n hvalid
    simp only [checkReleaseName, checkReleaseNameComposed,
      checkReleaseNameAgainstPrefixInput, checkReleaseNameAgainstRegex,
      checkReleaseGroups]
    cases hpt : jsTruthy cfg.prefixStr <;>
      cases hsw : jsStartsWith n cfg.prefixStr <;>
        cases hrt : jsTruthy cfg.regexStr <;>
          cases ht : pat.test n <;>
            cases hk : cfg.keepLatestReleases <;>
              simp_all
  · intro keep pat seen n
    simp [checkReleaseName, jsTruthy]

/-- Witness for C9: the conjunction law at the §8 configuration and a
concrete name. -/
theorem checkReleaseName_is_conjunction_witness :
    checkReleaseName cfg8 groupEngine [] ("develop-2") =
      checkReleaseNameComposed cfg8 groupEngine [] ("develop-2") :=
  checkReleaseName_is_conjunction.1 cfg8 groupEngine [] ("develop-2") (fun _ => by decide)

/-- C10.  With keep-latest-releases enabled, a name failing the prefix check
or the regex check makes `checkReleaseName` return false and leave the
seen-groups state unchanged. -/
theorem failing_name_leaves_state (cfg : NameConfig) (pat : RegexEngine) (seen : Seen)
    (n : String) (_hk : cfg.keepLatestReleases = true)
    (hfail : checkReleaseNameAgainstPrefixInput cfg n = false ∨
      checkReleaseNameAgainstRegex cfg pat n = false) :
    checkReleaseName cfg pat seen n = (false, seen) := by
  rcases hfail with hf | hf
  · have hparts : jsTruthy cfg.prefixStr = true ∧ jsStartsWith n cfg.prefixStr = false := by
      cases hpt : jsTruthy cfg.prefixStr with
      | true =>
        refine ⟨rfl, ?_⟩
        simpa [checkReleaseNameAgainstPrefixInput, hpt] using hf
      | false =>
        rw [checkReleaseNameAgainstPrefixInput, hpt] at hf
        simp at hf
    rw [checkReleaseName]
    simp [hparts.1, hparts.2]
  · have hparts : jsTruthy cfg.regexStr = true ∧ pat.test n = false := by
      cases hrt : jsTruthy cfg.regexStr with
      | true =>
        refine ⟨rfl, ?_⟩
        simpa [checkReleaseNameAgainstRegex, hrt] using hf
      | false =>
        rw [checkReleaseNameAgainstRegex, hrt] at hf
        simp at hf
    rw [checkReleaseName]
    cases hg : jsTruthy cfg.prefixStr && !(jsStartsWith n cfg.prefixStr) <;>
      simp [hg, hparts.1, hparts.2]

/-- Witness for C10: a name without a digit suffix fails the §8 regex and
leaves the state untouched. -/
theorem failing_name_leaves_state_witness :
    checkReleaseName cfg8 groupEngine [] ("nodigits") = (false, []) :=
  failing_name_leaves_state cfg8 groupEngine [] ("nodigits") (by decide)
    (Or.inr (by decide))

lemma callsOf_nil : callsOf [] = [] := rfl

lemma callsOf_cons_info (m : String) (evs : List Event) :
    callsOf (Event.info m :: evs) = callsOf evs := rfl

lemma callsOf_cons_call (c : ApiCall) (evs : List Event) :
    callsOf (Event.call c :: evs) = c :: callsOf evs := rfl

lemma callsOf_cons_setFailed (m : Option String) (evs : List Event) :
    callsOf (Event.setFailed m :: evs) = callsOf evs := rfl

/-- When every deletion call succeeds, the network calls of the delete loop
are empty in dry-run mode and otherwise exactly the expected per-release
sequence. -/
lemma deleteLoop_calls_success (collab : Collaborators) (inputs : Inputs) :
    ∀ (releases : List ReleaseSummary),
      (∀ r ∈ releases, collab.deleteRelease inputs.owner inputs.repo r.id = none ∧
        collab.deleteRef inputs.owner inputs.repo (("tags/") ++ r.tag) = none) →
      callsOf (deleteLoop collab inputs releases).1 =
        (if inputs.dryRun then [] else expectedDeleteCalls inputs releases) := by
  intro releases
  induction releases with
  | nil =>
    intro h
    cases hdry : inputs.dryRun <;> simp [deleteLoop, callsOf_nil, expectedDeleteCalls, hdry]
  | cons r rest ih =>
    intro h
    have hr := h r (by simp)
    have htail := ih (fun m hm => h m (by simp [hm]))
    cases hdry : inputs.dryRun with
    | true =>
      rw [deleteLoop]
      simp only [hdry, if_true]
      rw [callsOf_cons_info]
      rw [htail, hdry]
      simp
    | false =>
      rw [deleteLoop]
      simp only [hdry, Bool.false_eq_true, if_false, hr.1]
      cases htags : inputs.deleteTags with
      | true =>
        simp only [htags, if_true, hr.2]
        rw [callsOf_cons_info, callsOf_cons_call, callsOf_cons_call, htail, hdry]
        simp [expectedDeleteCalls, htags]
      | false =>
        simp only [htags, Bool.false_eq_true, if_false]
        rw [callsOf_cons_info, callsOf_cons_call, htail, hdry]
        simp [expectedDeleteCalls, htags]

/-- C8.  `deleteReleases` makes no collaborator call at all in dry-run mode;
otherwise, for each release in list order, one release-deletion call with
(owner, repo, id) followed — exactly when tag deletion is enabled — by one
tag-deletion call with ref `tags/` + tag, strictly after that release's
deletion call and before the next release is processed (the flattened
per-release expected sequence). -/
theorem deleteReleases_call_sequence (collab : Collaborators) (inputs : Inputs)
    (releases : List ReleaseSummary)
    (hok : ∀ r ∈ releases, collab.deleteRelease inputs.owner inputs.repo r.id = none ∧
      collab.deleteRef inputs.owner inputs.repo (("tags/") ++ r.tag) = none) :
    callsOf (deleteReleases collab inputs releases).1 =
      (if inputs.dryRun then [] else expectedDeleteCalls inputs releases) := by
  rw [deleteReleases]
  rw [callsOf_cons_info]
  exact deleteLoop_calls_success collab inputs releases hok

/-- Witness for C8: one release with tag deletion enabled produces the
release-deletion call followed by its tag-deletion call. -/
theorem deleteReleases_call_sequence_witness :
    callsOf (deleteReleases noopCollab inputsW [⟨1, ("a"), ("t1")⟩]).1 =
      (if inputsW.dryRun then [] else expectedDeleteCalls inputsW [⟨1, ("a"), ("t1")⟩]) :=
  deleteReleases_call_sequence noopCollab inputsW [⟨1, ("a"), ("t1")⟩] (by decide)

/-- When input parsing throws, the run reports the caught value's `message`
property via a single `setFailed` and performs nothing else. -/
lemma run_of_parse_error (raw : RawInputs) (compile : String → RegexEngine)
    (parseDuration : String → Except JsError Int) (now : Int) (collab : Collaborators)
    (fuel : Nat) (e : JsError)
    (hp : parseInputs raw compile parseDuration now = Except.error e) :
    run raw compile parseDuration now collab fuel = some [Event.setFailed (jsMessage e)] := by
  rw [run, hp]

/-- C5.  If keep-latest-releases is requested and the regex is missing or
lacks the `(?<group>` capture, `parseInputs` fails with a thrown
configuration-error string, and the run makes no network call at all (no
release is listed or deleted). -/
theorem keep_latest_validation_pre_network (raw : RawInputs)
    (compile : String → RegexEngine) (parseDuration : String → Except JsError Int)
    (now : Int) (collab : Collaborators) (fuel : Nat)
    (hkeep : raw.keepLatestStr = "true")
    (hbad : jsTruthy raw.regexStr = false ∨
      containsSubstring raw.regexStr ("(?<group>") = false) :
    (∃ msg, parseInputs raw compile parseDuration now = Except.error (JsError.strErr msg)) ∧
    ∃ evs, run raw compile parseDuration now collab fuel = some evs ∧ callsOf evs = [] := by
  have hkeq : (raw.keepLatestStr == "true") = true := by
    rw [hkeep]
    rfl
  have hperr : ∃ msg, parseInputs raw compile parseDuration now =
      Except.error (JsError.strErr msg) := by
    rcases hbad with hb | hb
    · refine ⟨msgRegexRequired, ?_⟩
      rw [parseInputs]
      simp [hkeq, hb]
    · cases ht : jsTruthy raw.regexStr with
      | false =>
        refine ⟨msgRegexRequired, ?_⟩
        rw [parseInputs]
        simp [hkeq, ht]
      | true =>
        refine ⟨msgGroupRequired, ?_⟩
        rw [parseInputs]
        simp [hkeq, ht, hb]
  rcases hperr with ⟨msg, hmsg⟩
  refine ⟨⟨msg, hmsg⟩, [Event.setFailed (jsMessage (JsError.strErr msg))],
    run_of_parse_error raw compile parseDuration now collab fuel _ hmsg, rfl⟩

/-- Witness for C5: the concrete bad configuration (keep-latest-releases
without a regex). -/
theorem keep_latest_validation_pre_network_witness :
    (∃ msg, parseInputs rawBad compileAny durOk 0 = Except.error (JsError.strErr msg)) ∧
    ∃ evs, run rawBad compileAny durOk 0 noopCollab 1 = some evs ∧ callsOf evs = [] :=
  keep_latest_validation_pre_network rawBad compileAny durOk 0 noopCollab 1 rfl
    (Or.inl (by decide))

/-- C6.  If the duration parser rejects the max-age string, `parseInputs`
fails, and the run fails (a `setFailed` event occurs) before any network
interaction: the trace holds no listing or deletion call. -/
theorem malformed_duration_pre_network (raw : RawInputs)
    (compile : String → RegexEngine) (parseDuration : String → Except JsError Int)
    (now : Int) (collab : Collaborators) (fuel : Nat) (e : JsError)
    (hdur : parseDuration raw.maxAge = Except.error e) :
    (∃ e2, parseInputs raw compile parseDuration now = Except.error e2) ∧
    ∃ evs, run raw compile parseDuration now collab fuel = some evs ∧
      callsOf evs = [] ∧ ∃ m, Event.setFailed m ∈ evs := by
  have hperr : ∃ e2, parseInputs raw compile parseDuration now = Except.error e2 := by
    by_cases h1 : ((raw.keepLatestStr == "true") && !(jsTruthy raw.regexStr)) = true
    · refine ⟨JsError.strErr msgRegexRequired, ?_⟩
      rw [parseInputs]
      simp [h1]
    · by_cases h2 : ((raw.keepLatestStr == "true") &&
        !(containsSubstring raw.regexStr ("(?<group>"))) = true
      · refine ⟨JsError.strErr msgGroupRequired, ?_⟩
        rw [parseInputs]
        simp only [h1, Bool.false_eq_true, if_false, h2, if_true]
      · refine ⟨e, ?_⟩
        rw [parseInputs]
        simp only [Bool.not_eq_true] at h1 h2
        simp only [h1, h2, Bool.false_eq_true, if_false]
        rw [hdur]
  rcases hperr with ⟨e2, hmsg⟩
  refine ⟨⟨e2, hmsg⟩, [Event.setFailed (jsMessage e2)],
    run_of_parse_error raw compile parseDuration now collab fuel _ hmsg, ?_, ?_⟩
  · rw [callsOf_cons_setFailed, callsOf_nil]
  · exact ⟨jsMessage e2, by simp⟩

/-- Witness for C6: a failing duration parser on an otherwise plain
configuration. -/
theorem malformed_duration_pre_network_witness :
    (∃ e2, parseInputs rawPlain compileAny durFail 0 = Except.error e2) ∧
    ∃ evs, run rawPlain compileAny durFail 0 noopCollab 1 = some evs ∧
      callsOf evs = [] ∧ ∃ m, Event.setFailed m ∈ evs :=
  malformed_duration_pre_network rawPlain compileAny durFail 0 noopCollab 1
    (JsError.errObj ("Invalid duration")) rfl

/-- C7 (as stated it fails on the code).  A configuration error is thrown as
a plain string; reading `error.message` on a string yields `undefined`, so
`core.setFailed` receives `undefined` instead of the error's text: at the
failing configuration the single failure event carries no message even
though the thrown configuration error's text is a nonempty string. -/
theorem run_config_error_message_undefined :
    parseInputs rawBad compileAny durOk 0 =
      Except.error (JsError.strErr msgRegexRequired) ∧
    run rawBad compileAny durOk 0 noopCollab 1 = some [Event.setFailed none] ∧
    jsMessage (JsError.strErr msgRegexRequired) = none ∧ msgRegexRequired ≠ "" :=
  ⟨rfl, rfl, rfl, by decide⟩
